import Mathlib

/-!
# Shallow embedding of `p2pcoordinator.go` (daisy)

This file embeds the p2p coordinator of the daisy repository
(`src/p2pcoordinator.go`) in Lean 4 and proves the specification claims
about it.

Modelling conventions:
* Go strings are Lean `String`s; address canonicalization, which works
  character by character, is defined on `List Char` and wrapped for
  `String`.
* The persistence layer (`dbGetBlockchainHeight`, `dbGetHeightHashes`,
  `dbGetSavedPeers`, `dbSavePeer`), the network (`net.ResolveTCPAddr`,
  `net.DialTCP`, `net.Dial`) and the expiring-set implementation
  (`StringSetWithExpiry`) are external to the source file; they are
  modelled as oracle parameters and snapshot values, per the collaborator
  contracts of the specification.
* Channels (`chanToPeer`) are modelled as FIFO queues (`List`), a send
  being an append at the tail.
* The world visible to the handlers (peer registry, saved-peer store)
  is threaded explicitly; a ghost field `dialed` records the trace of
  dial attempts, in order, so that dialing policy can be stated.
-/

/-- Modelled from the spec: the network's fixed default peer port
(`DefaultP2PPort`), a configuration constant consumed, not owned, by the
core; its definition is not in `src/`. -/
def DefaultP2PPort : Nat := 2017

/-- Modelled from the spec: the local ephemeral network identity tag
(`p2pEphemeralID`), a configuration constant not defined in `src/`. -/
def p2pEphemeralID : Nat := 0

/-- Modelled from the spec: the genesis/chain identity marker
(`GenesisBlockHash`) attached to outbound messages; not defined in `src/`. -/
def GenesisBlockHash : String := "genesis"

/-- The decimal digits of the default port, as appended by
`fmt.Sprintf("%s:%d", host, DefaultP2PPort)`. -/
def defaultPortChars : List Char := (Nat.repr DefaultP2PPort).toList

/-- Index of the last occurrence of `':'` in a character list, mirroring
`strings.LastIndex(address, ":")` (which returns `-1`, here `none`, when
absent). -/
def lastIndexOfColon : List Char → Option Nat
  | [] => none
  | c :: rest =>
    match lastIndexOfColon rest with
    | some i => some (i + 1)
    | none => if c = ':' then some 0 else none

/-- Address canonicalization from `handleDiscoverPeers`: strip everything
from the last colon on (if any) and re-append the default port:
`host = address[0:i]` for `i = strings.LastIndex(address, ":")`, then
`fmt.Sprintf("%s:%d", host, DefaultP2PPort)`. -/
def canonicalizeChars (address : List Char) : List Char :=
  let host : List Char :=
    match lastIndexOfColon address with
    | some i => address.take i
    | none => address
  host ++ ':' :: defaultPortChars

/-- String wrapper for `canonicalizeChars`. -/
def canonicalAddress (address : String) : String :=
  (canonicalizeChars address.toList).asString

theorem lastIndexOfColon_eq_none_of_not_mem {s : List Char} (h : ':' ∉ s) :
    lastIndexOfColon s = none := by
  induction s with
  | nil => rfl
  | cons c rest ih =>
    have hc : c ≠ ':' := fun hc => h (hc ▸ List.mem_cons_self c rest)
    have hrest : ':' ∉ rest := fun hr => h (List.mem_cons_of_mem c hr)
    simp [lastIndexOfColon, ih hrest]
    exact hc

theorem lastIndexOfColon_append_colon {h p : List Char} (hp : ':' ∉ p) :
    lastIndexOfColon (h ++ ':' :: p) = some h.length := by
  induction h with
  | nil =>
    simp [lastIndexOfColon, lastIndexOfColon_eq_none_of_not_mem hp]
  | cons c rest ih =>
    simp [lastIndexOfColon, ih]

theorem colon_not_mem_defaultPortChars : ':' ∉ defaultPortChars := by
  decide

theorem canonicalizeChars_append_colon {h p : List Char} (hp : ':' ∉ p) :
    canonicalizeChars (h ++ ':' :: p) = h ++ ':' :: defaultPortChars := by
  simp [canonicalizeChars, lastIndexOfColon_append_colon hp,
    List.take_left]

theorem canonicalizeChars_idem (s : List Char) :
    canonicalizeChars (canonicalizeChars s) = canonicalizeChars s := by
  have hs : canonicalizeChars s =
      (match lastIndexOfColon s with
        | some i => s.take i
        | none => s) ++ ':' :: defaultPortChars := rfl
  rw [hs, canonicalizeChars_append_colon colon_not_mem_defaultPortChars]

/-- A p2p wire message as built by the coordinator: either a
`p2pMsgGetBlockHashesStruct` (header plus a `[MinBlockHeight, MaxBlockHeight]`
range) or a `p2pMsgBlockHashesStruct` (header plus an ordered hash list).
The shared `p2pMsgHeader` fields (`P2pID`, `Root`) are inlined; the `Msg`
tag is the constructor. -/
inductive P2pMsg where
  | getBlockHashes (p2pID : Nat) (root : String)
      (minBlockHeight maxBlockHeight : Int) : P2pMsg
  | blockHashes (p2pID : Nat) (root : String) (hashes : List String) : P2pMsg
deriving DecidableEq, Repr

/-- A `p2pConnection`: canonical address, the peer's self-reported chain
height, and the outbound queue `chanToPeer` (a FIFO; a channel send appends
at the tail).  The socket handle and the inbound queue play no role in the
coordinator logic modelled here. -/
structure P2pConnection where
  address : String
  chainHeight : Int
  chanToPeer : List P2pMsg
deriving DecidableEq, Repr

/-- The coordinator's own fields (`p2pCoordinatorType`).  The two
`StringSetWithExpiry` instances are modelled as membership snapshots
(the set of keys currently unexpired); their TTL mechanics are external
to `src/`.  `lastReconnectTime` is a timestamp in abstract time units. -/
structure P2pCoordinatorType where
  lastTickBlockchainHeight : Int
  recentlyRequestedBlocks : List String
  lastReconnectTime : Nat
  badPeers : List String
deriving DecidableEq, Repr

/-- The external world the handlers act on: the peer registry `p2pPeers`
(`peers`), the persisted saved-peer store (`savedPeers`, written by
`dbSavePeer` and read by `dbGetSavedPeers`), and a ghost trace `dialed`
listing, in order, every address for which a dial attempt was made. -/
structure PeerWorld where
  peers : List P2pConnection
  savedPeers : List String
  dialed : List String
deriving DecidableEq, Repr

/-- `p2pPeers.HasAddress`: is some registered connection keyed by this
address? -/
def hasAddress (peers : List P2pConnection) (addr : String) : Bool :=
  peers.any fun p => p.address == addr

/-- A freshly dialed connection as constructed in `handleDiscoverPeers` and
`connectDbPeers`: empty outbound queue (`make(chan interface{}, 5)`), height
not yet reported (Go zero value). -/
def newConnection (addr : String) : P2pConnection :=
  { address := addr, chainHeight := 0, chanToPeer := [] }

/-- `handleSearchForBlocks`: build one `p2pMsgGetBlockHashes` request with
`MinBlockHeight = dbGetBlockchainHeight()` (passed as `dbHeight`) and
`MaxBlockHeight = p2pcStart.chainHeight`, and send it on the peer's
outbound queue.  Returns the updated peer. -/
def handleSearchForBlocks (dbHeight : Int) (p2pcStart : P2pConnection) :
    P2pConnection :=
  let msg := P2pMsg.getBlockHashes p2pEphemeralID GenesisBlockHash
    dbHeight p2pcStart.chainHeight
  { p2pcStart with chanToPeer := p2pcStart.chanToPeer ++ [msg] }

/-- `handleDiscoverPeers`: for each candidate address, canonicalize, skip it
when already registered or quarantined, then resolve and dial.  A resolve
or dial failure executes `return`, ending the whole loop; a successful dial
registers the new connection and persists its address (`dbSavePeer`).
`resolveOk` and `dialOk` are oracles for the outcomes of
`net.ResolveTCPAddr` and `net.DialTCP`; a dial attempt is recorded in the
ghost `dialed` trace once resolution has succeeded. -/
def handleDiscoverPeers (resolveOk dialOk : String → Bool)
    (co : P2pCoordinatorType) : List String → PeerWorld → PeerWorld
  | [], w => w
  | address :: rest, w =>
    let c := canonicalAddress address
    if hasAddress w.peers c || co.badPeers.contains c then
      handleDiscoverPeers resolveOk dialOk co rest w
    else if !resolveOk c then
      w
    else
      let w1 := { w with dialed := w.dialed ++ [c] }
      if !dialOk c then
        w1
      else
        handleDiscoverPeers resolveOk dialOk co rest
          { w1 with
            peers := w1.peers ++ [newConnection c]
            savedPeers := w1.savedPeers ++ [c] }

/-- The loop body of `connectDbPeers`, iterating over the snapshot
`peers := dbGetSavedPeers()`: skip addresses already registered or
quarantined, dial the rest (`net.Dial`), and on success register the new
connection; a dial failure logs and continues with the next address. -/
def connectDbPeersLoop (dialOk : String → Bool) (bad : List String) :
    List String → PeerWorld → PeerWorld
  | [], w => w
  | peer :: rest, w =>
    if hasAddress w.peers peer then
      connectDbPeersLoop dialOk bad rest w
    else if bad.contains peer then
      connectDbPeersLoop dialOk bad rest w
    else
      let w1 := { w with dialed := w.dialed ++ [peer] }
      if !dialOk peer then
        connectDbPeersLoop dialOk bad rest w1
      else
        connectDbPeersLoop dialOk bad rest
          { w1 with peers := w1.peers ++ [newConnection peer] }

/-- `connectDbPeers`: reconcile with the saved-peer store
(`dbGetSavedPeers()` is the `savedPeers` field of the world). -/
def connectDbPeers (dialOk : String → Bool) (co : P2pCoordinatorType)
    (w : PeerWorld) : PeerWorld :=
  connectDbPeersLoop dialOk co.badPeers w.savedPeers w

/-- `floodPeersWithNewBlocks`: fetch the hashes for the grown range from
persistence (`dbGetHeightHashes`, modelled from the spec as the oracle
`hashesDb` with contract `hashesInRange(minExclusive, maxInclusive)`),
build one `p2pMsgBlockHashes` message, and send it to every registered
peer's outbound queue. -/
def floodPeersWithNewBlocks (hashesDb : Int → Int → List String)
    (minHeight maxHeight : Int) (peers : List P2pConnection) :
    List P2pConnection :=
  let msg := P2pMsg.blockHashes p2pEphemeralID GenesisBlockHash
    (hashesDb minHeight maxHeight)
  peers.map fun p => { p with chanToPeer := p.chanToPeer ++ [msg] }

/-- `10 * time.Minute`, in the abstract time units of
`P2pCoordinatorType.lastReconnectTime` (seconds). -/
def tenMinutes : Nat := 10 * 60

/-- `handleTimeTick`: step 1 — if the persisted height (`dbHeight`) grew
past `lastTickBlockchainHeight`, flood all peers with the new range and
advance the field; step 2 — if at least ten minutes elapsed since
`lastReconnectTime` (`time.Since`, with `now` the current clock), reset it
to `now` and run `connectDbPeers`. -/
def handleTimeTick (dbHeight : Int) (hashesDb : Int → Int → List String)
    (now : Nat) (dialOk : String → Bool)
    (co : P2pCoordinatorType) (w : PeerWorld) :
    P2pCoordinatorType × PeerWorld :=
  let newHeight := dbHeight
  let st :=
    if newHeight > co.lastTickBlockchainHeight then
      ({ co with lastTickBlockchainHeight := newHeight },
        { w with peers := (floodPeersWithNewBlocks hashesDb
            co.lastTickBlockchainHeight newHeight w.peers) })
    else (co, w)
  if tenMinutes ≤ now - st.1.lastReconnectTime then
    ({ st.1 with lastReconnectTime := now }, connectDbPeers dialOk st.1 st.2)
  else st

/-- One event consumed by the coordinator's `Run` select loop, bundled with
the oracle readings (persistence, network, clock) current at the instant
the event is handled.  A `SearchForBlocks` payload is a pointer to a
registered connection, modelled by its registry index. -/
inductive P2pEvent where
  | ctrlSearchForBlocks (dbHeight : Int) (idx : Nat) : P2pEvent
  | ctrlDiscoverPeers (resolveOk dialOk : String → Bool)
      (addresses : List String) : P2pEvent
  | timeTick (dbHeight : Int) (hashesDb : Int → Int → List String)
      (now : Nat) (dialOk : String → Bool) : P2pEvent

/-- Does the event dispatch to `handleTimeTick`? -/
def P2pEvent.isTick : P2pEvent → Bool
  | .timeTick _ _ _ _ => true
  | _ => false

/-- Coordinator fields plus the world, the state carried across iterations
of `Run`'s event loop. -/
structure SystemState where
  co : P2pCoordinatorType
  world : PeerWorld

/-- One iteration of `Run`'s select loop: dispatch the event to its
handler. -/
def step (e : P2pEvent) (s : SystemState) : SystemState :=
  match e with
  | .ctrlSearchForBlocks dbHeight idx =>
    match s.world.peers.get? idx with
    | some p =>
      { s with world := { s.world with
          peers := s.world.peers.set idx (handleSearchForBlocks dbHeight p) } }
    | none => s
  | .ctrlDiscoverPeers resolveOk dialOk addresses =>
    { s with world := handleDiscoverPeers resolveOk dialOk s.co addresses s.world }
  | .timeTick dbHeight hashesDb now dialOk =>
    let r := handleTimeTick dbHeight hashesDb now dialOk s.co s.world
    { co := r.1, world := r.2 }

/-- A run of the event loop over a finite event sequence. -/
def run (events : List P2pEvent) (s : SystemState) : SystemState :=
  events.foldl (fun s e => step e s) s

theorem hasAddress_append (l l' : List P2pConnection) (a : String) :
    hasAddress (l ++ l') a = (hasAddress l a || hasAddress l' a) := by
  simp [hasAddress]

theorem hasAddress_newConnection (l : List P2pConnection) (c : String) :
    hasAddress (l ++ [newConnection c]) c = true := by
  simp [hasAddress, newConnection]

/-- The reconciliation loop only appends freshly constructed (empty-queue)
connections to the registry, leaves every existing registry entry in place,
and does not touch the saved-peer store. -/
theorem connectDbPeersLoop_shape (dialOk : String → Bool) (bad : List String) :
    ∀ (saved : List String) (w : PeerWorld),
    ∃ new, (connectDbPeersLoop dialOk bad saved w).peers = w.peers ++ new ∧
      (∀ p ∈ new, p.chanToPeer = []) ∧
      (connectDbPeersLoop dialOk bad saved w).savedPeers = w.savedPeers := by
  intro saved
  induction saved with
  | nil =>
    intro w
    refine ⟨[], ?_, ?_, ?_⟩ <;> simp [connectDbPeersLoop]
  | cons peer rest ih =>
    intro w
    by_cases h1 : hasAddress w.peers peer
    · simpa [connectDbPeersLoop, h1] using ih w
    · by_cases h2 : peer ∈ bad
      · simpa [connectDbPeersLoop, h1, h2] using ih w
      · by_cases h3 : dialOk peer
        · obtain ⟨new, hp, hq, hs⟩ := ih
            { w with dialed := w.dialed ++ [peer],
                     peers := w.peers ++ [newConnection peer] }
          refine ⟨newConnection peer :: new, ?_, ?_, ?_⟩
          · simpa [connectDbPeersLoop, h1, h2, h3] using hp
          · intro p hp'
            rcases List.mem_cons.mp hp' with h | h
            · subst h; rfl
            · exact hq p h
          · simpa [connectDbPeersLoop, h1, h2, h3] using hs
        · obtain ⟨new, hp, hq, hs⟩ := ih { w with dialed := w.dialed ++ [peer] }
          refine ⟨new, ?_, hq, ?_⟩
          · simpa [connectDbPeersLoop, h1, h2, h3] using hp
          · simpa [connectDbPeersLoop, h1, h2, h3] using hs

/-- Every dial attempt recorded by the reconciliation loop targets an
address taken from the saved snapshot that was, at handler entry, neither
quarantined nor registered. -/
theorem connectDbPeersLoop_dialed (dialOk : String → Bool) (bad : List String) :
    ∀ (saved : List String) (w : PeerWorld),
    ∃ d, (connectDbPeersLoop dialOk bad saved w).dialed = w.dialed ++ d ∧
      d.Sublist saved ∧
      ∀ a ∈ d, bad.contains a = false ∧ hasAddress w.peers a = false := by
  intro saved
  induction saved with
  | nil =>
    intro w
    exact ⟨[], by simp [connectDbPeersLoop], List.Sublist.refl _, by simp⟩
  | cons peer rest ih =>
    intro w
    by_cases h1 : hasAddress w.peers peer
    · obtain ⟨d, hd, hsub, hcond⟩ := ih w
      exact ⟨d, by simpa [connectDbPeersLoop, h1] using hd,
        hsub.cons peer, hcond⟩
    · by_cases h2 : peer ∈ bad
      · obtain ⟨d, hd, hsub, hcond⟩ := ih w
        exact ⟨d, by simpa [connectDbPeersLoop, h1, h2] using hd,
          hsub.cons peer, hcond⟩
      · by_cases h3 : dialOk peer
        · obtain ⟨d, hd, hsub, hcond⟩ := ih
            { w with dialed := w.dialed ++ [peer],
                     peers := w.peers ++ [newConnection peer] }
          refine ⟨peer :: d, ?_, hsub.cons₂ peer, ?_⟩
          · simpa [connectDbPeersLoop, h1, h2, h3] using hd
          · intro a ha
            rcases List.mem_cons.mp ha with h | h
            · subst h
              exact ⟨by simpa using h2, by simpa using h1⟩
            · refine ⟨(hcond a h).1, ?_⟩
              have := (hcond a h).2
              simp only [hasAddress_append, Bool.or_eq_false_iff] at this
              exact this.1
        · obtain ⟨d, hd, hsub, hcond⟩ := ih { w with dialed := w.dialed ++ [peer] }
          refine ⟨peer :: d, ?_, hsub.cons₂ peer, ?_⟩
          · simpa [connectDbPeersLoop, h1, h2, h3] using hd
          · intro a ha
            rcases List.mem_cons.mp ha with h | h
            · subst h
              exact ⟨by simpa using h2, by simpa using h1⟩
            · exact hcond a h

/-- Every dial attempt recorded by the discovery handler targets a
canonical address that was, at handler entry, neither quarantined nor
registered; no address is dialed twice in one batch. -/
theorem handleDiscoverPeers_dialed (resolveOk dialOk : String → Bool)
    (co : P2pCoordinatorType) :
    ∀ (addresses : List String) (w : PeerWorld),
    ∃ d, (handleDiscoverPeers resolveOk dialOk co addresses w).dialed =
        w.dialed ++ d ∧ d.Nodup ∧
      ∀ a ∈ d, co.badPeers.contains a = false ∧ hasAddress w.peers a = false := by
  intro addresses
  induction addresses with
  | nil =>
    intro w
    exact ⟨[], by simp [handleDiscoverPeers], by simp, by simp⟩
  | cons address rest ih =>
    intro w
    by_cases h1 : hasAddress w.peers (canonicalAddress address)
    · obtain ⟨d, hd, hnd, hcond⟩ := ih w
      exact ⟨d, by simpa [handleDiscoverPeers, h1] using hd, hnd, hcond⟩
    · by_cases h2 : canonicalAddress address ∈ co.badPeers
      · obtain ⟨d, hd, hnd, hcond⟩ := ih w
        exact ⟨d, by simpa [handleDiscoverPeers, h1, h2] using hd, hnd, hcond⟩
      · by_cases h3 : resolveOk (canonicalAddress address)
        · by_cases h4 : dialOk (canonicalAddress address)
          · obtain ⟨d, hd, hnd, hcond⟩ := ih
              { w with dialed := w.dialed ++ [canonicalAddress address],
                       peers := w.peers ++ [newConnection (canonicalAddress address)],
                       savedPeers := w.savedPeers ++ [canonicalAddress address] }
            refine ⟨canonicalAddress address :: d, ?_, ?_, ?_⟩
            · simpa [handleDiscoverPeers, h1, h2, h3, h4] using hd
            · refine List.nodup_cons.mpr ⟨?_, hnd⟩
              intro hmem
              have h5 : hasAddress
                  (w.peers ++ [newConnection (canonicalAddress address)])
                  (canonicalAddress address) = false := by
                simpa using (hcond _ hmem).2
              rw [hasAddress_newConnection] at h5
              exact Bool.true_eq_false ▸ h5
            · intro a ha
              rcases List.mem_cons.mp ha with h | h
              · subst h
                exact ⟨by simpa using h2, by simpa using h1⟩
              · refine ⟨(hcond a h).1, ?_⟩
                have h5 : hasAddress
                    (w.peers ++ [newConnection (canonicalAddress address)])
                    a = false := by
                  simpa using (hcond a h).2
                rw [hasAddress_append] at h5
                exact (Bool.or_eq_false_iff.mp h5).1
          · refine ⟨[canonicalAddress address], ?_, by simp, ?_⟩
            · simp [handleDiscoverPeers, h1, h2, h3, h4]
            · intro a ha
              have h5 : a = canonicalAddress address := by simpa using ha
              subst h5
              exact ⟨by simpa using h2, by simpa using h1⟩
        · exact ⟨[], by simp [handleDiscoverPeers, h1, h2, h3], by simp, by simp⟩

theorem toList_asString (l : List Char) : (List.asString l).toList = l := rfl

/-- A coordinator state with empty quarantine, used to instantiate
theorems on concrete inputs. -/
def co0 : P2pCoordinatorType :=
  { lastTickBlockchainHeight := 0, recentlyRequestedBlocks := [],
    lastReconnectTime := 0, badPeers := [] }

/-- An empty world, used to instantiate theorems on concrete inputs. -/
def w0 : PeerWorld := { peers := [], savedPeers := [], dialed := [] }

/-- A world whose saved-peer store holds one address, used to instantiate
theorems on concrete inputs. -/
def w1 : PeerWorld :=
  { peers := [], savedPeers := ["10.0.0.1:2017"], dialed := [] }

/-- C6: address canonicalization is idempotent — canonicalizing the result
of canonicalization yields the same string as canonicalizing once — and
both `"1.2.3.4"` and `"1.2.3.4:9999"` canonicalize to
`"1.2.3.4:<defaultPort>"` (the default port being 2017 in this model). -/
theorem claim_C6_canonicalization_idempotent :
    (∀ s : String, canonicalAddress (canonicalAddress s) = canonicalAddress s) ∧
    canonicalAddress "1.2.3.4" = "1.2.3.4:2017" ∧
    canonicalAddress "1.2.3.4:9999" = "1.2.3.4:2017" := by
  refine ⟨?_, by decide, by decide⟩
  intro s
  unfold canonicalAddress
  rw [toList_asString, canonicalizeChars_idem]

/-- C10: canonicalization treats everything after the last colon as a port
and discards it — for every input decomposing as `h ++ ':' :: p` with no
colon in `p` (i.e. the last colon separates `h` from `p`), the canonical
address is `h` joined with the default port — so the bracketless IPv6
literal `"::1"` canonicalizes to `"::"` followed by the default port
(`"::2017"`), not preserving the host. -/
theorem claim_C10_port_strips_after_last_colon :
    (∀ h p : List Char, ':' ∉ p →
      canonicalizeChars (h ++ ':' :: p) = h ++ ':' :: defaultPortChars) ∧
    canonicalAddress "::1" = "::2017" := by
  exact ⟨fun h p hp => canonicalizeChars_append_colon hp, by decide⟩

/-- C10 witness: the general part of the claim evaluated at
`"a:1"` (`h = "a"`, `p = "1"`). -/
theorem claim_C10_port_strips_after_last_colon_witness :
    canonicalizeChars (['a'] ++ ':' :: ['1']) = ['a'] ++ ':' :: defaultPortChars :=
  claim_C10_port_strips_after_last_colon.1 ['a'] ['1'] (by decide)

/-- C2: neither the discovery handler nor saved-peer reconciliation ever
dials an address that is quarantined in `badPeers` or already registered:
every recorded dial attempt targets an address outside `badPeers` and
outside the registry as of handler entry, and no address is dialed twice
within one handler run (so an address registered mid-batch is never
re-dialed).  For reconciliation the saved-peer store is a set
(`dbGetSavedPeers` returns map keys), hence the `Nodup` hypothesis. -/
theorem claim_C2_no_dial_of_bad_or_registered :
    (∀ (resolveOk dialOk : String → Bool) (co : P2pCoordinatorType)
        (addresses : List String) (w : PeerWorld),
      ∃ d, (handleDiscoverPeers resolveOk dialOk co addresses w).dialed =
          w.dialed ++ d ∧ d.Nodup ∧
        ∀ a ∈ d, co.badPeers.contains a = false ∧ hasAddress w.peers a = false) ∧
    (∀ (dialOk : String → Bool) (co : P2pCoordinatorType) (w : PeerWorld),
      w.savedPeers.Nodup →
      ∃ d, (connectDbPeers dialOk co w).dialed = w.dialed ++ d ∧ d.Nodup ∧
        ∀ a ∈ d, co.badPeers.contains a = false ∧ hasAddress w.peers a = false) := by
  constructor
  · exact handleDiscoverPeers_dialed
  · intro dialOk co w hnd
    obtain ⟨d, hd, hsub, hcond⟩ :=
      connectDbPeersLoop_dialed dialOk co.badPeers w.savedPeers w
    exact ⟨d, hd, hnd.sublist hsub, hcond⟩

/-- C2 witness: both parts at concrete inputs (one discovery batch, one
reconciliation run over a singleton saved store). -/
theorem claim_C2_no_dial_of_bad_or_registered_witness :
    (∃ d, (handleDiscoverPeers (fun _ => true) (fun _ => true) co0
        ["1.2.3.4"] w0).dialed = w0.dialed ++ d ∧ d.Nodup ∧
      ∀ a ∈ d, co0.badPeers.contains a = false ∧ hasAddress w0.peers a = false) ∧
    (∃ d, (connectDbPeers (fun _ => true) co0 w1).dialed = w1.dialed ++ d ∧
      d.Nodup ∧
      ∀ a ∈ d, co0.badPeers.contains a = false ∧ hasAddress w1.peers a = false) :=
  ⟨claim_C2_no_dial_of_bad_or_registered.1 (fun _ => true) (fun _ => true) co0
      ["1.2.3.4"] w0,
    claim_C2_no_dial_of_bad_or_registered.2 (fun _ => true) co0 w1 (by decide)⟩

/-- C1 counterexample: in the batch `["a", "b"]` with resolution failing
only for `"a:2017"` (and every dial succeeding), the handler performs no
dial at all — candidate `"b"`, which occurs after the failing candidate
and is neither registered nor quarantined, is never canonicalized,
filtered, or dialed, refuting "every address occurring after a failing
candidate is still processed".  The second conjunct shows that with
resolution succeeding, `"b"` is dialed, so the omission is caused by the
failure alone. -/
theorem claim_C1_counterexample :
    (handleDiscoverPeers (fun s => !(s == "a:2017")) (fun _ => true) co0
        ["a", "b"] w0).dialed = [] ∧
    (handleDiscoverPeers (fun _ => true) (fun _ => true) co0
        ["a", "b"] w0).dialed = ["a:2017", "b:2017"] := by
  exact ⟨by decide, by decide⟩

/-- C1 (amended): when resolution or dialing of an unfiltered candidate
fails, the handler returns at once, abandoning that candidate and the
entire remainder of the batch: on resolution failure the world is returned
unchanged, and on dial failure it is unchanged except for the recorded
dial attempt; addresses before the failing candidate are processed
normally. -/
theorem claim_C1_amended (resolveOk dialOk : String → Bool)
    (co : P2pCoordinatorType) (address : String) (rest : List String)
    (w : PeerWorld)
    (hreg : hasAddress w.peers (canonicalAddress address) = false)
    (hbad : canonicalAddress address ∉ co.badPeers) :
    (resolveOk (canonicalAddress address) = false →
      handleDiscoverPeers resolveOk dialOk co (address :: rest) w = w) ∧
    (resolveOk (canonicalAddress address) = true →
      dialOk (canonicalAddress address) = false →
      handleDiscoverPeers resolveOk dialOk co (address :: rest) w =
        { w with dialed := w.dialed ++ [canonicalAddress address] }) := by
  constructor
  · intro hres
    simp [handleDiscoverPeers, hreg, hbad, hres]
  · intro hres hdial
    simp [handleDiscoverPeers, hreg, hbad, hres, hdial]

/-- C1 (amended) witness: the resolve-failure case evaluated on the batch
`["a", "b"]` — the whole run leaves the world untouched. -/
theorem claim_C1_amended_witness :
    handleDiscoverPeers (fun s => !(s == "a:2017")) (fun _ => true) co0
      ["a", "b"] w0 = w0 :=
  (claim_C1_amended (fun s => !(s == "a:2017")) (fun _ => true) co0 "a" ["b"]
    w0 (by decide) (by decide)).1 (by decide)

/-- C3: on a tick where the persisted height grew, every peer registered at
the moment of flood iteration receives exactly one broadcast message
carrying exactly the hash list for the half-open range
`(lastTickBlockchainHeight, newHeight]` (the `dbGetHeightHashes` contract),
and `lastTickBlockchainHeight` is then advanced to the new height; any
connections the same tick's reconciliation may add afterwards carry no
flood message.  Without growth, no flood occurs that tick: every
pre-existing peer's queue is untouched and no added connection carries a
message. -/
theorem claim_C3_flood_exactly_once_per_peer (dbHeight : Int)
    (hashesDb : Int → Int → List String) (now : Nat) (dialOk : String → Bool)
    (co : P2pCoordinatorType) (w : PeerWorld) :
    (dbHeight > co.lastTickBlockchainHeight →
      (handleTimeTick dbHeight hashesDb now dialOk co w).1.lastTickBlockchainHeight
          = dbHeight ∧
      ∃ new, (handleTimeTick dbHeight hashesDb now dialOk co w).2.peers =
          (w.peers.map fun p =>
            { p with chanToPeer := p.chanToPeer ++
                [P2pMsg.blockHashes p2pEphemeralID GenesisBlockHash
                  (hashesDb co.lastTickBlockchainHeight dbHeight)] }) ++ new ∧
        ∀ p ∈ new, p.chanToPeer = []) ∧
    (¬ dbHeight > co.lastTickBlockchainHeight →
      ∃ new, (handleTimeTick dbHeight hashesDb now dialOk co w).2.peers =
          w.peers ++ new ∧ ∀ p ∈ new, p.chanToPeer = []) := by
  constructor
  · intro hg
    by_cases hr : tenMinutes ≤ now - co.lastReconnectTime
    · obtain ⟨new, hp, hq, _⟩ := connectDbPeersLoop_shape dialOk co.badPeers
        w.savedPeers
        { w with peers := (floodPeersWithNewBlocks hashesDb
            co.lastTickBlockchainHeight dbHeight w.peers) }
      refine ⟨by simp [handleTimeTick, hg, hr], new, ?_, hq⟩
      simp only [handleTimeTick, connectDbPeers, hg, if_pos, if_true]
      simpa [handleTimeTick, connectDbPeers, hg, hr,
        floodPeersWithNewBlocks] using hp
    · refine ⟨by simp [handleTimeTick, hg, hr], [], ?_, by simp⟩
      simp [handleTimeTick, hg, hr, floodPeersWithNewBlocks]
  · intro hg
    by_cases hr : tenMinutes ≤ now - co.lastReconnectTime
    · obtain ⟨new, hp, hq, _⟩ :=
        connectDbPeersLoop_shape dialOk co.badPeers w.savedPeers w
      refine ⟨new, ?_, hq⟩
      simpa [handleTimeTick, connectDbPeers, hg, hr] using hp
    · exact ⟨[], by simp [handleTimeTick, hg, hr], by simp⟩

/-- C3 witness: growth from height 0 to 3 with one registered peer — the
peer's queue receives the single flood message for `(0, 3]`. -/
theorem claim_C3_flood_exactly_once_per_peer_witness :
    (handleTimeTick 3 (fun _ _ => ["h1", "h2", "h3"]) 0 (fun _ => false) co0
        { peers := [newConnection "1.2.3.4:2017"], savedPeers := [],
          dialed := [] }).1.lastTickBlockchainHeight = 3 ∧
    ∃ new,
      (handleTimeTick 3 (fun _ _ => ["h1", "h2", "h3"]) 0 (fun _ => false) co0
        { peers := [newConnection "1.2.3.4:2017"], savedPeers := [],
          dialed := [] }).2.peers =
      ([newConnection "1.2.3.4:2017"].map fun p =>
        { p with chanToPeer := p.chanToPeer ++
            [P2pMsg.blockHashes p2pEphemeralID GenesisBlockHash
              ((fun _ _ => ["h1", "h2", "h3"]) co0.lastTickBlockchainHeight
                (3 : Int))] }) ++ new ∧
      ∀ p ∈ new, p.chanToPeer = [] :=
  (claim_C3_flood_exactly_once_per_peer 3 (fun _ _ => ["h1", "h2", "h3"]) 0
    (fun _ => false) co0
    { peers := [newConnection "1.2.3.4:2017"], savedPeers := [],
      dialed := [] }).1 (by decide)

/-- C9: when the persisted height has not grown past
`lastTickBlockchainHeight` (including a regression below it), the tick
handler leaves `lastTickBlockchainHeight` unchanged and floods nobody:
pre-existing peers' queues are untouched and any connections added by
reconciliation carry no message. -/
theorem claim_C9_no_flood_without_growth (dbHeight : Int)
    (hashesDb : Int → Int → List String) (now : Nat) (dialOk : String → Bool)
    (co : P2pCoordinatorType) (w : PeerWorld)
    (hle : dbHeight ≤ co.lastTickBlockchainHeight) :
    (handleTimeTick dbHeight hashesDb now dialOk co w).1.lastTickBlockchainHeight
        = co.lastTickBlockchainHeight ∧
    ∃ new, (handleTimeTick dbHeight hashesDb now dialOk co w).2.peers =
        w.peers ++ new ∧ ∀ p ∈ new, p.chanToPeer = [] := by
  have hg : ¬ dbHeight > co.lastTickBlockchainHeight := not_lt.mpr hle
  by_cases hr : tenMinutes ≤ now - co.lastReconnectTime
  · obtain ⟨new, hp, hq, _⟩ :=
      connectDbPeersLoop_shape dialOk co.badPeers w.savedPeers w
    refine ⟨by simp [handleTimeTick, hg, hr], new, ?_, hq⟩
    simpa [handleTimeTick, connectDbPeers, hg, hr] using hp
  · exact ⟨by simp [handleTimeTick, hg, hr], [],
      by simp [handleTimeTick, hg, hr], by simp⟩

/-- C9 witness: height regressed from 5 to 3 — `lastTickBlockchainHeight`
stays 5 and the registry is unchanged. -/
theorem claim_C9_no_flood_without_growth_witness :
    (handleTimeTick 3 (fun _ _ => []) 0 (fun _ => false)
        { co0 with lastTickBlockchainHeight := 5 }
        w0).1.lastTickBlockchainHeight =
      ({ co0 with lastTickBlockchainHeight := 5 }).lastTickBlockchainHeight ∧
    ∃ new, (handleTimeTick 3 (fun _ _ => []) 0 (fun _ => false)
        { co0 with lastTickBlockchainHeight := 5 } w0).2.peers =
      w0.peers ++ new ∧ ∀ p ∈ new, p.chanToPeer = [] :=
  claim_C9_no_flood_without_growth 3 (fun _ _ => []) 0 (fun _ => false)
    { co0 with lastTickBlockchainHeight := 5 } w0 (by decide)

/-- C5: saved-peer reconciliation runs on a tick exactly when at least ten
minutes elapsed since `lastReconnectTime`; whenever it runs,
`lastReconnectTime` is reset to the current time first, for every possible
dial outcome; when it does not run, `lastReconnectTime` is unchanged and
no dial attempt is made. -/
theorem claim_C5_reconciliation_cadence (dbHeight : Int)
    (hashesDb : Int → Int → List String) (now : Nat) (dialOk : String → Bool)
    (co : P2pCoordinatorType) (w : PeerWorld) :
    (tenMinutes ≤ now - co.lastReconnectTime →
      (handleTimeTick dbHeight hashesDb now dialOk co w).1.lastReconnectTime
          = now ∧
      (handleTimeTick dbHeight hashesDb now dialOk co w).2 =
        connectDbPeers dialOk co
          (if dbHeight > co.lastTickBlockchainHeight then
            { w with peers := (floodPeersWithNewBlocks hashesDb
                co.lastTickBlockchainHeight dbHeight w.peers) }
          else w)) ∧
    (now - co.lastReconnectTime < tenMinutes →
      (handleTimeTick dbHeight hashesDb now dialOk co w).1.lastReconnectTime
          = co.lastReconnectTime ∧
      (handleTimeTick dbHeight hashesDb now dialOk co w).2.dialed
          = w.dialed) := by
  constructor
  · intro hr
    by_cases hg : dbHeight > co.lastTickBlockchainHeight <;>
      simp [handleTimeTick, connectDbPeers, hg, hr]
  · intro hr'
    have hr : ¬ tenMinutes ≤ now - co.lastReconnectTime := not_le.mpr hr'
    by_cases hg : dbHeight > co.lastTickBlockchainHeight <;>
      simp [handleTimeTick, hg, hr]

/-- C5 witness: with `lastReconnectTime = 0` and the clock at exactly ten
minutes, reconciliation runs and resets the timer even though every dial
fails. -/
theorem claim_C5_reconciliation_cadence_witness :
    (handleTimeTick 0 (fun _ _ => []) tenMinutes (fun _ => false) co0
        w1).1.lastReconnectTime = tenMinutes ∧
    (handleTimeTick 0 (fun _ _ => []) tenMinutes (fun _ => false) co0 w1).2 =
      connectDbPeers (fun _ => false) co0
        (if (0 : Int) > co0.lastTickBlockchainHeight then
          { w1 with peers := (floodPeersWithNewBlocks (fun _ _ => [])
              co0.lastTickBlockchainHeight 0 w1.peers) }
        else w1) :=
  (claim_C5_reconciliation_cadence 0 (fun _ _ => []) tenMinutes
    (fun _ => false) co0 w1).1 (by decide)


theorem step_search_eq_none (dbHeight : Int) (idx : Nat) (s : SystemState)
    (hg : s.world.peers.get? idx = none) :
    step (P2pEvent.ctrlSearchForBlocks dbHeight idx) s = s := by
  simp only [step, hg]

theorem step_search_eq_some (dbHeight : Int) (idx : Nat) (s : SystemState)
    (p : P2pConnection) (hg : s.world.peers.get? idx = some p) :
    step (P2pEvent.ctrlSearchForBlocks dbHeight idx) s =
      { s with world := { s.world with
          peers := s.world.peers.set idx (handleSearchForBlocks dbHeight p) } } := by
  simp only [step, hg]

theorem step_lastTick_eq_of_not_tick (e : P2pEvent) (s : SystemState)
    (he : e.isTick = false) :
    (step e s).co.lastTickBlockchainHeight
      = s.co.lastTickBlockchainHeight := by
  cases e with
  | ctrlSearchForBlocks dbHeight idx =>
    cases hg : s.world.peers.get? idx with
    | none => rw [step_search_eq_none dbHeight idx s hg]
    | some p => rw [step_search_eq_some dbHeight idx s p hg]
  | ctrlDiscoverPeers resolveOk dialOk addresses => simp [step]
  | timeTick dbHeight hashesDb now dialOk => simp [P2pEvent.isTick] at he

theorem step_lastTick_le (e : P2pEvent) (s : SystemState) :
    s.co.lastTickBlockchainHeight
      ≤ (step e s).co.lastTickBlockchainHeight := by
  cases e with
  | ctrlSearchForBlocks dbHeight idx =>
    cases hg : s.world.peers.get? idx with
    | none => rw [step_search_eq_none dbHeight idx s hg]
    | some p => rw [step_search_eq_some dbHeight idx s p hg]
  | ctrlDiscoverPeers resolveOk dialOk addresses => simp [step]
  | timeTick dbHeight hashesDb now dialOk =>
    by_cases hg : dbHeight > s.co.lastTickBlockchainHeight <;>
      by_cases hr : tenMinutes ≤ now - s.co.lastReconnectTime <;>
        simp [step, handleTimeTick, hg, hr] <;> omega

theorem run_lastTick_le (events : List P2pEvent) :
    ∀ s : SystemState,
      s.co.lastTickBlockchainHeight
        ≤ (run events s).co.lastTickBlockchainHeight := by
  induction events with
  | nil => intro s; simp [run]
  | cons e es ih =>
    intro s
    calc s.co.lastTickBlockchainHeight
        ≤ (step e s).co.lastTickBlockchainHeight := step_lastTick_le e s
      _ ≤ (run es (step e s)).co.lastTickBlockchainHeight := ih (step e s)
      _ = (run (e :: es) s).co.lastTickBlockchainHeight := rfl

/-- C4: `lastTickBlockchainHeight` is mutated only by the tick handler —
every non-tick event of the run loop leaves it unchanged — and it never
decreases: each processed event, and hence every finite run of the event
loop, leaves it greater than or equal to its previous value. -/
theorem claim_C4_lastTick_only_tick_monotone :
    (∀ (e : P2pEvent) (s : SystemState), e.isTick = false →
      (step e s).co.lastTickBlockchainHeight
        = s.co.lastTickBlockchainHeight) ∧
    (∀ (e : P2pEvent) (s : SystemState),
      s.co.lastTickBlockchainHeight
        ≤ (step e s).co.lastTickBlockchainHeight) ∧
    (∀ (events : List P2pEvent) (s : SystemState),
      s.co.lastTickBlockchainHeight
        ≤ (run events s).co.lastTickBlockchainHeight) :=
  ⟨step_lastTick_eq_of_not_tick, step_lastTick_le,
    fun events s => run_lastTick_le events s⟩

/-- An initial system state for concrete instantiations. -/
def s0 : SystemState := { co := co0, world := w0 }

/-- C4 witness: a discovery event leaves the height field unchanged, and a
run consisting of one tick does not decrease it. -/
theorem claim_C4_lastTick_only_tick_monotone_witness :
    (step (P2pEvent.ctrlDiscoverPeers (fun _ => true) (fun _ => true) [])
        s0).co.lastTickBlockchainHeight = s0.co.lastTickBlockchainHeight ∧
    s0.co.lastTickBlockchainHeight ≤
      (run [P2pEvent.timeTick 5 (fun _ _ => []) 0 (fun _ => false)]
        s0).co.lastTickBlockchainHeight :=
  ⟨claim_C4_lastTick_only_tick_monotone.1
      (P2pEvent.ctrlDiscoverPeers (fun _ => true) (fun _ => true) []) s0 rfl,
    claim_C4_lastTick_only_tick_monotone.2.2
      [P2pEvent.timeTick 5 (fun _ _ => []) 0 (fun _ => false)] s0⟩

/-- A registered connection and a one-peer system state for concrete
instantiations. -/
def peer1 : P2pConnection :=
  { address := "1.2.3.4:2017", chainHeight := 7, chanToPeer := [] }

/-- A system state whose registry holds exactly `peer1`. -/
def s1 : SystemState :=
  { co := co0, world := { peers := [peer1], savedPeers := [], dialed := [] } }

/-- C7: for a `SearchForBlocks` message carrying the registered peer at
index `idx`, the handler enqueues onto that peer's outbound queue exactly
one get-block-hashes request whose minimum height is the currently
persisted local chain height and whose maximum height is the peer's
self-reported chain height; every other registry entry is untouched. -/
theorem claim_C7_search_request_range (dbHeight : Int) (idx : Nat)
    (s : SystemState) (p : P2pConnection)
    (hp : s.world.peers.get? idx = some p) :
    (step (P2pEvent.ctrlSearchForBlocks dbHeight idx) s).world.peers.get? idx
      = some { p with chanToPeer := p.chanToPeer ++
          [P2pMsg.getBlockHashes p2pEphemeralID GenesisBlockHash dbHeight
            p.chainHeight] } ∧
    ∀ j, j ≠ idx →
      (step (P2pEvent.ctrlSearchForBlocks dbHeight idx) s).world.peers.get? j
        = s.world.peers.get? j := by
  have hlen : idx < s.world.peers.length := by
    by_contra hcon
    push_neg at hcon
    rw [List.get?_len_le hcon] at hp
    cases hp
  rw [step_search_eq_some dbHeight idx s p hp]
  constructor
  · rw [List.get?_set_eq_of_lt _ hlen]
    simp [handleSearchForBlocks]
  · intro j hj
    exact List.get?_set_ne _ _ (Ne.symm hj)

/-- C7 witness: with local height 3 and `peer1` reporting height 7, the
enqueued request carries the range `[3, 7]`. -/
theorem claim_C7_search_request_range_witness :
    (step (P2pEvent.ctrlSearchForBlocks 3 0) s1).world.peers.get? 0
      = some { peer1 with chanToPeer := peer1.chanToPeer ++
          [P2pMsg.getBlockHashes p2pEphemeralID GenesisBlockHash 3
            peer1.chainHeight] } ∧
    ∀ j, j ≠ 0 →
      (step (P2pEvent.ctrlSearchForBlocks 3 0) s1).world.peers.get? j
        = s1.world.peers.get? j :=
  claim_C7_search_request_range 3 0 s1 peer1 rfl

/-- C8: the search-for-blocks handler mutates no coordinator state —
`lastTickBlockchainHeight`, `lastReconnectTime`, `recentlyRequestedBlocks`
and `badPeers` are all unchanged, as are the saved-peer store and the dial
trace; the only effect is replacing the target registry entry by the same
connection with one request appended to its outbound queue. -/
theorem claim_C8_search_no_state_mutation (dbHeight : Int) (idx : Nat)
    (s : SystemState) :
    (step (P2pEvent.ctrlSearchForBlocks dbHeight idx) s).co.lastTickBlockchainHeight
        = s.co.lastTickBlockchainHeight ∧
    (step (P2pEvent.ctrlSearchForBlocks dbHeight idx) s).co.lastReconnectTime
        = s.co.lastReconnectTime ∧
    (step (P2pEvent.ctrlSearchForBlocks dbHeight idx) s).co.recentlyRequestedBlocks
        = s.co.recentlyRequestedBlocks ∧
    (step (P2pEvent.ctrlSearchForBlocks dbHeight idx) s).co.badPeers
        = s.co.badPeers ∧
    (step (P2pEvent.ctrlSearchForBlocks dbHeight idx) s).world.savedPeers
        = s.world.savedPeers ∧
    (step (P2pEvent.ctrlSearchForBlocks dbHeight idx) s).world.dialed
        = s.world.dialed ∧
    ∀ p, s.world.peers.get? idx = some p →
      (step (P2pEvent.ctrlSearchForBlocks dbHeight idx) s).world.peers
        = s.world.peers.set idx
            { p with chanToPeer := p.chanToPeer ++
              [P2pMsg.getBlockHashes p2pEphemeralID GenesisBlockHash dbHeight
                p.chainHeight] } := by
  cases hg : s.world.peers.get? idx with
  | none =>
    rw [step_search_eq_none dbHeight idx s hg]
    refine ⟨rfl, rfl, rfl, rfl, rfl, rfl, ?_⟩
    intro p hp
    cases hp
  | some a =>
    rw [step_search_eq_some dbHeight idx s a hg]
    refine ⟨rfl, rfl, rfl, rfl, rfl, rfl, ?_⟩
    intro p hp
    injection hp with hpe
    subst hpe
    simp [handleSearchForBlocks]

/-- C8 witness: frame conditions and the single-enqueue effect evaluated
on the one-peer state `s1`. -/
theorem claim_C8_search_no_state_mutation_witness :
    (step (P2pEvent.ctrlSearchForBlocks 3 0) s1).co.lastTickBlockchainHeight
        = s1.co.lastTickBlockchainHeight ∧
    (step (P2pEvent.ctrlSearchForBlocks 3 0) s1).world.peers
        = s1.world.peers.set 0
            { peer1 with chanToPeer := peer1.chanToPeer ++
              [P2pMsg.getBlockHashes p2pEphemeralID GenesisBlockHash 3
                peer1.chainHeight] } :=
  ⟨(claim_C8_search_no_state_mutation 3 0 s1).1,
    (claim_C8_search_no_state_mutation 3 0 s1).2.2.2.2.2.2 peer1 rfl⟩
